import Mathlib

set_option autoImplicit false

/-!
Verification of the hp repository's admin action layer
(`src/hp/account/admin.py`) and bootstrap form mixin
(`src/hp/bootstrap/forms.py`), as a shallow embedding in Lean.

Python dictionaries are embedded as association lists that keep the
insertion order of keys (`updateOne` mirrors `dict.__setitem__`:
an existing key keeps its position and gets the new value, a new key is
appended at the end).  Python's builtin `sorted`, a stable sort by key,
is embedded as a stable insertion sort.  Django querysets are embedded
as lists of records, exceptions as `Except`, and side effects (messages,
task queueing, audit-trail events) as explicitly returned lists.
-/

namespace HP

namespace Bootstrap

/-- A button descriptor: `{'text': ..., 'class': ...}` from
`BootstrapFormMixin.default_buttons`.  The Python key `class` is spelled
`cls` because `class` is a Lean keyword. -/
structure Button where
  text : String
  cls : String
  deriving DecidableEq, Repr

/-- A Python dict `name -> button descriptor`, embedded as an
insertion-ordered association list. -/
abbrev Buttons := List (String × Button)

/-- Dict lookup: the value bound to `k`, if any (first binding wins;
a real dict has unique keys). -/
def lookup : Buttons → String → Option Button
  | [], _ => none
  | p :: rest, k => if p.1 = k then some p.2 else lookup rest k

/-- `d[k] = v` on a Python dict: replace the value at `k` in place if the
key exists, otherwise append the new binding at the end. -/
def updateOne : Buttons → String → Button → Buttons
  | [], k, v => [(k, v)]
  | p :: rest, k, v => if p.1 = k then (k, v) :: rest else p :: updateOne rest k v

/-- `d.update(e)` on Python dicts: fold `updateOne` over the bindings of
`e` in order. -/
def update (d : Buttons) (e : Buttons) : Buttons :=
  e.foldl (fun acc p => updateOne acc p.1 p.2) d

/-- The keys of a dict layer are distinct (always true of a real Python
dict; our association lists can in principle repeat keys). -/
abbrev keysNodup (d : Buttons) : Prop :=
  (d.map Prod.fst).Nodup

/-- `BootstrapFormMixin.__init__` button merge
(src/hp/bootstrap/forms.py lines 49-53):

    buttons = {}
    for c in reversed(self.__class__.__mro__):
        buttons.update(getattr(c, 'default_buttons', {}))
    buttons.update(kwargs.pop('buttons', {}))

`mro` lists each class's `default_buttons` in method-resolution order,
most specific class first (as Python's `__mro__` does); the loop walks it
reversed, so most-general layers are merged first and more specific
layers overwrite them; the caller-supplied `buttons` are merged last. -/
def mergeButtons (mro : List Buttons) (caller : Buttons) : Buttons :=
  update ((mro.reverse).foldl update []) caller

/-- Class attribute `BootstrapFormMixin.default_buttons`. -/
def default_buttons : Buttons :=
  [("submit", { text := "Submit", cls := "primary" })]

/-- Class attribute `BootstrapFormMixin.button_order`. -/
def button_order : List String := ["submit"]

/-- The sort key of `BootstrapFormMixin.get_buttons`:
`order.index(t[0]) if t[0] in order else -1`. -/
def sortKey (order : List String) (t : String × Button) : Int :=
  if t.1 ∈ order then (order.indexOf t.1 : Int) else -1

/-- Insert `x` into `l` before the first element whose key is `≥ key x`.
Building a sort out of this insertion (head element inserted last, hence
in front of equal keys contributed by later elements) yields a stable
sort by `key`, which is the specified behavior of Python's `sorted`. -/
def insertStable {α : Type} (key : α → Int) (x : α) : List α → List α
  | [] => [x]
  | y :: ys => if key x ≤ key y then x :: y :: ys else y :: insertStable key x ys

/-- Stable insertion sort by an integer key: the embedding of Python's
`sorted(l, key=...)`. -/
def sortedByKey {α : Type} (key : α → Int) : List α → List α
  | [] => []
  | x :: xs => insertStable key x (sortedByKey key xs)

/-- `BootstrapFormMixin.get_buttons`
(src/hp/bootstrap/forms.py lines 55-57):

    order = self.button_order
    return sorted(self.buttons.items(),
                  key=lambda t: order.index(t[0]) if t[0] in order else -1)
-/
def get_buttons (order : List String) (buttons : Buttons) : Buttons :=
  sortedByKey (sortKey order) buttons

/-- The state a form instance carries that `get_buttons` reads: the merged
`self.buttons` dict and the `self.button_order` class attribute. -/
structure FormState where
  buttons : Buttons
  button_order : List String
  deriving DecidableEq, Repr

/-- `get_buttons` as a state transformer on the form instance: it reads
`self.buttons` and `self.button_order` and mutates nothing. -/
def get_buttonsS (s : FormState) : Buttons × FormState :=
  (get_buttons s.button_order s.buttons, s)

/-! ### Lemmas about dict update and lookup -/

theorem lookup_updateOne (d : Buttons) (k k' : String) (v : Button) :
    lookup (updateOne d k v) k' = if k' = k then some v else lookup d k' := by
  induction d with
  | nil =>
    simp only [updateOne, lookup]
    by_cases h : k' = k
    · simp [h]
    · rw [if_neg (fun hh => h hh.symm), if_neg h]
  | cons p rest ih =>
    by_cases hp : p.1 = k
    · by_cases h : k' = k
      · simp [updateOne, lookup, hp, h]
      · have hkk : ¬ k = k' := fun hh => h hh.symm
        have hpk : ¬ p.1 = k' := by rw [hp]; exact hkk
        simp [updateOne, lookup, hp, h, hkk, hpk]
    · simp only [updateOne, if_neg hp, lookup, ih]
      by_cases h : k' = k
      · subst h
        simp [hp]
      · simp [h]

theorem lookup_eq_none_of_not_mem_keys (d : Buttons) (k : String)
    (h : k ∉ d.map Prod.fst) : lookup d k = none := by
  induction d with
  | nil => rfl
  | cons p rest ih =>
    simp only [List.map_cons, List.mem_cons] at h
    push_neg at h
    have : ¬ p.1 = k := fun hh => h.1 hh.symm
    simp [lookup, this, ih h.2]

theorem lookup_update (d e : Buttons) (k : String) (he : keysNodup e) :
    lookup (update d e) k =
      match lookup e k with
      | some v => some v
      | none => lookup d k := by
  induction e generalizing d with
  | nil => simp [update, lookup]
  | cons p rest ih =>
    have hnd : keysNodup rest := by
      simpa [keysNodup] using (List.nodup_cons.mp he).2
    have hnot : p.1 ∉ rest.map Prod.fst := by
      simpa [keysNodup] using (List.nodup_cons.mp he).1
    have hstep : update d (p :: rest) = update (updateOne d p.1 p.2) rest := rfl
    rw [hstep, ih _ hnd]
    by_cases h : p.1 = k
    · subst h
      have : lookup rest p.1 = none := lookup_eq_none_of_not_mem_keys rest p.1 hnot
      simp [lookup, this, lookup_updateOne]
    · have hk : ¬ p.1 = k := h
      have hk' : k ≠ p.1 := fun hh => h hh.symm
      cases hrest : lookup rest k <;>
        simp [lookup, hk, hrest, lookup_updateOne, hk']

theorem lookup_foldl_update (mro : List Buttons) (k : String)
    (h : ∀ d ∈ mro, keysNodup d) :
    lookup ((mro.reverse).foldl update []) k =
      mro.findSome? (fun d => lookup d k) := by
  rw [List.foldl_reverse]
  induction mro with
  | nil => simp [lookup, List.findSome?]
  | cons d rest ih =>
    have hd : keysNodup d := h d (List.mem_cons_self d rest)
    have hrest : ∀ x ∈ rest, keysNodup x := fun x hx => h x (List.mem_cons_of_mem d hx)
    simp only [List.foldr_cons]
    rw [lookup_update _ _ _ hd, ih hrest]
    cases hval : lookup d k <;> simp [List.findSome?_cons, hval]

/-! ### Lemmas about the stable sort -/

theorem mem_insertStable {α : Type} (key : α → Int) (x : α) (l : List α) (z : α)
    (h : z ∈ insertStable key x l) : z = x ∨ z ∈ l := by
  induction l with
  | nil => simpa [insertStable] using h
  | cons y ys ih =>
    simp only [insertStable] at h
    by_cases hc : key x ≤ key y
    · rw [if_pos hc] at h
      simpa using h
    · rw [if_neg hc] at h
      rcases List.mem_cons.mp h with h1 | h2
      · exact Or.inr (by simp [h1])
      · rcases ih h2 with h3 | h4
        · exact Or.inl h3
        · exact Or.inr (by simp [h4])

theorem pairwise_insertStable {α : Type} (key : α → Int) (x : α) (l : List α)
    (h : l.Pairwise (fun a b => key a ≤ key b)) :
    (insertStable key x l).Pairwise (fun a b => key a ≤ key b) := by
  induction l with
  | nil => simp [insertStable]
  | cons y ys ih =>
    rcases List.pairwise_cons.mp h with ⟨hy, hys⟩
    simp only [insertStable]
    by_cases hc : key x ≤ key y
    · rw [if_pos hc]
      refine List.pairwise_cons.mpr ⟨?_, h⟩
      intro z hz
      rcases List.mem_cons.mp hz with rfl | hz'
      · exact hc
      · exact le_trans hc (hy z hz')
    · rw [if_neg hc]
      refine List.pairwise_cons.mpr ⟨?_, ih hys⟩
      intro z hz
      rcases mem_insertStable key x ys z hz with rfl | hz'
      · exact le_of_lt (not_le.mp hc)
      · exact hy z hz'

theorem sortedByKey_pairwise {α : Type} (key : α → Int) (l : List α) :
    (sortedByKey key l).Pairwise (fun a b => key a ≤ key b) := by
  induction l with
  | nil => simp [sortedByKey]
  | cons x xs ih => exact pairwise_insertStable key x _ ih

theorem insertStable_eq_cons {α : Type} (key : α → Int) (x : α) (l : List α)
    (h : ∀ y ∈ l, key x ≤ key y) : insertStable key x l = x :: l := by
  cases l with
  | nil => rfl
  | cons y ys => simp [insertStable, h y (by simp)]

theorem sortedByKey_eq_of_pairwise {α : Type} (key : α → Int) (l : List α)
    (h : l.Pairwise (fun a b => key a ≤ key b)) : sortedByKey key l = l := by
  induction l with
  | nil => rfl
  | cons x xs ih =>
    rcases List.pairwise_cons.mp h with ⟨hx, hxs⟩
    simp only [sortedByKey]
    rw [ih hxs, insertStable_eq_cons key x xs hx]

theorem sortedByKey_idem {α : Type} (key : α → Int) (l : List α) :
    sortedByKey key (sortedByKey key l) = sortedByKey key l :=
  sortedByKey_eq_of_pairwise key _ (sortedByKey_pairwise key l)

theorem insertStable_append {α : Type} (key : α → Int) (x : α) (l1 l2 : List α)
    (h : ∀ a ∈ l1, ¬ key x ≤ key a) :
    insertStable key x (l1 ++ l2) = l1 ++ insertStable key x l2 := by
  induction l1 with
  | nil => rfl
  | cons a l ih =>
    simp only [List.cons_append, insertStable, if_neg (h a (by simp))]
    congr 1
    exact ih (fun b hb => h b (by simp [hb]))

/-- A stable sort splits at a minimal key value `c`: all elements with key
`c` come first, in their original order, followed by the sorted rest. -/
theorem sortedByKey_min_split {α : Type} (key : α → Int) (c : Int)
    (hmin : ∀ x, c ≤ key x) (l : List α) :
    sortedByKey key l =
      l.filter (fun x => key x == c) ++
        sortedByKey key (l.filter (fun x => key x != c)) := by
  induction l with
  | nil => rfl
  | cons x xs ih =>
    by_cases hx : key x = c
    · have h1 : (key x == c) = true := by simp [hx]
      have h2 : (key x != c) = false := by simp [hx]
      simp only [sortedByKey, List.filter_cons, h1, h2, if_true, if_false,
        Bool.false_eq_true]
      rw [ih, insertStable_eq_cons key x _ (fun y _ => hx ▸ hmin y)]
      rfl
    · have hlt : c < key x := lt_of_le_of_ne (hmin x) (Ne.symm hx)
      have h1 : (key x == c) = false := by simp [hx]
      have h2 : (key x != c) = true := by simp [hx]
      simp only [sortedByKey, List.filter_cons, h1, h2, if_true, if_false,
        Bool.false_eq_true]
      rw [ih, insertStable_append]
      intro a ha
      have hac : key a = c := by simpa using (List.mem_filter.mp ha).2
      rw [hac]
      exact not_le.mpr hlt

/-! ### Facts about the sort key of get_buttons -/

theorem sortKey_ge (order : List String) (t : String × Button) :
    -1 ≤ sortKey order t := by
  unfold sortKey
  split
  · exact le_trans (by norm_num) (Int.natCast_nonneg _)
  · exact le_refl _

theorem sortKey_eq_neg_one_iff (order : List String) (t : String × Button) :
    sortKey order t = -1 ↔ t.1 ∉ order := by
  unfold sortKey
  by_cases h : t.1 ∈ order
  · rw [if_pos h]
    constructor
    · intro hc
      have := Int.natCast_nonneg (order.indexOf t.1)
      omega
    · intro hn
      exact absurd h hn
  · rw [if_neg h]
    simp [h]

/-! ### The claims about the form mixin -/

/-- The placement property asserted by claim C6: every entry whose name is
not in `order` is placed after every entry whose name is in `order`. -/
abbrev unlistedPlacedLast (order : List String) (r : Buttons) : Prop :=
  ∀ i j : Fin r.length,
    (r.get i).1 ∉ order → (r.get j).1 ∈ order → (j : Nat) < (i : Nat)

/-- Concrete button descriptors used in witnesses and counterexamples. -/
def bPrimary : Button := { text := "Submit", cls := "primary" }

def bSecondary : Button := { text := "More", cls := "secondary" }

def bInfo : Button := { text := "Go", cls := "info" }

/-- C5: button defaults are merged from the most general ancestor to the
most specific one, more specific layers winning on key collision, and
caller-supplied buttons merged last with highest precedence.  `mro` lists
each class's `default_buttons` most-specific-first (as `__mro__` does);
`mergeButtons` walks it reversed.  The resolved binding for a key `k` is
the caller's binding if the caller provides one, otherwise the binding of
the first (most specific) layer of the ancestry that declares `k`. -/
theorem C5_button_merge_precedence (mro : List Buttons) (caller : Buttons)
    (k : String) (hmro : ∀ d ∈ mro, keysNodup d) (hcaller : keysNodup caller) :
    lookup (mergeButtons mro caller) k =
      match lookup caller k with
      | some v => some v
      | none => mro.findSome? (fun d => lookup d k) := by
  unfold mergeButtons
  rw [lookup_update _ _ _ hcaller]
  cases h : lookup caller k with
  | some v => rfl
  | none => simpa using lookup_foldl_update mro k hmro

/-- Witness for C5: ancestor A declares "submit" with descriptor
`bPrimary`, subclass B overrides it with `bSecondary`, so with no caller
buttons the resolved descriptor is B's; a caller override `bInfo` takes
precedence over both. -/
theorem C5_button_merge_precedence_witness :
    (∀ d ∈ [[("submit", bSecondary)], [("submit", bPrimary)]], keysNodup d) ∧
    keysNodup [("submit", bInfo)] ∧
    lookup (mergeButtons [[("submit", bSecondary)], [("submit", bPrimary)]]
      [("submit", bInfo)]) "submit" = some bInfo ∧
    lookup (mergeButtons [[("submit", bSecondary)], [("submit", bPrimary)]]
      []) "submit" = some bSecondary := by
  refine ⟨by decide, by decide, ?_, ?_⟩
  · rw [C5_button_merge_precedence _ _ _ (by decide) (by decide)]
    rfl
  · rw [C5_button_merge_precedence _ _ _ (by decide) (by decide)]
    rfl

/-- Counterexample to C6 as stated: with `button_order = ["submit"]` and
merged buttons `submit` (listed) then `extra` (unlisted, encountered
later), `get_buttons` places the unlisted entry FIRST, not last: the sort
key of an unlisted name is `-1`, which sorts before every listed index. -/
theorem C6_counterexample :
    ¬ unlistedPlacedLast ["submit"]
        (get_buttons ["submit"] [("submit", bPrimary), ("extra", bSecondary)]) := by
  decide

/-- C6 as amended: in the sequence produced by `get_buttons`, every entry
whose name does not appear in the order list is placed FIRST, before all
entries whose name does appear, and those unlisted entries keep the
encounter order of the merge. -/
theorem C6_amended_unlisted_first (order : List String) (bs : Buttons) :
    get_buttons order bs =
      bs.filter (fun t => decide (t.1 ∉ order)) ++
        get_buttons order (bs.filter (fun t => decide (t.1 ∈ order))) := by
  unfold get_buttons
  rw [sortedByKey_min_split (sortKey order) (-1) (sortKey_ge order) bs]
  have hp : (fun t : String × Button => sortKey order t == -1) =
      (fun t : String × Button => decide (t.1 ∉ order)) := by
    funext t
    rcases Decidable.em (t.1 ∈ order) with h | h
    · have hne : sortKey order t ≠ -1 :=
        fun hc => (sortKey_eq_neg_one_iff order t).mp hc h
      simp [hne, h]
    · have heq : sortKey order t = -1 := (sortKey_eq_neg_one_iff order t).mpr h
      simp [heq, h]
  have hq : (fun t : String × Button => sortKey order t != -1) =
      (fun t : String × Button => decide (t.1 ∈ order)) := by
    funext t
    rcases Decidable.em (t.1 ∈ order) with h | h
    · have hne : sortKey order t ≠ -1 :=
        fun hc => (sortKey_eq_neg_one_iff order t).mp hc h
      simp [hne, h]
    · have heq : sortKey order t = -1 := (sortKey_eq_neg_one_iff order t).mpr h
      simp [heq, h]
  rw [hp, hq]

/-- C9: Resolve Button Order is idempotent.  `get_buttons` mutates no
state, so calling it twice on the same form instance (the second call on
the state left behind by the first) yields the same sequence both times;
moreover sorting the produced sequence again yields the sequence itself
(idempotence of the stable sort on its own output). -/
theorem C9_get_buttons_idempotent (s : FormState) :
    (get_buttonsS (get_buttonsS s).2).1 = (get_buttonsS s).1 ∧
    get_buttons s.button_order (get_buttons s.button_order s.buttons) =
      get_buttons s.button_order s.buttons := by
  refine ⟨rfl, ?_⟩
  unfold get_buttons
  exact sortedByKey_idem _ _

end Bootstrap

namespace Account

/-- Modelled from the spec: `PURPOSE_REGISTER` is imported from
`account/constants.py`, which is not under src/; the spec calls it the
registration purpose.  Only its identity matters to the claims. -/
def PURPOSE_REGISTER : String := "register"

/-- A confirmation record, as the admin layer sees it: a primary key and
a purpose. -/
structure Confirmation where
  pk : Nat
  purpose : String
  deriving DecidableEq, Repr

/-- A user record, as the admin layer sees it.  `confirmed` is a nullable
timestamp (`none` = unconfirmed); `confirmations` is the user's related
confirmation set in its database order. -/
structure User where
  pk : Nat
  username : String
  email : String
  normalized_email : String
  blocked : Bool
  confirmed : Option Nat
  created_in_backend : Bool
  confirmations : List Confirmation
  domain : String
  deriving DecidableEq, Repr

/-- Modelled from the spec: `User.block` lives in `account/models.py`,
which is not under src/; per the spec's glossary, blocking is an account
state transition that disables the account, so we record it as setting
the `blocked` flag. -/
def User.block (u : User) : User := { u with blocked := true }

/-- The notification severities used by the admin layer. -/
inductive Level where
  | error
  | info
  deriving DecidableEq, Repr

/-- An operator-visible notification (`django.contrib.messages`). -/
structure Message where
  level : Level
  text : String
  deriving DecidableEq, Repr

/-- A background-task enqueue (`.delay(...)` calls).  `resend` carries the
confirmation primary keys handed to `resend_confirmations`;
`send_confirmation` carries the keyword arguments handed to
`send_confirmation_task` (`toAddr` stands for the Python kwarg `to`,
which is a Lean keyword). -/
inductive Task where
  | resend (pks : List Nat)
  | send_confirmation (user_pk : Nat) (purpose : String) (language : String)
      (toAddr : String) (base_url : String) (hostname : String)
  deriving DecidableEq, Repr

/-- The parts of the Django request the admin actions read: the scheme
and host (for base URLs) and the acting operator (`request.user`). -/
structure Request where
  scheme : String
  host : String
  user : String
  deriving DecidableEq, Repr

namespace ConfirmedFilter

/-- `ConfirmedFilter.queryset` (src/hp/account/admin.py lines 55-60):
filter on `confirmed__isnull` for values `'0'`/`'1'`, otherwise return
the queryset unchanged.  `value` is `none` when the parameter is absent. -/
def queryset (value : Option String) (qs : List User) : List User :=
  if value = some "0" then qs.filter (fun u => u.confirmed.isNone)
  else if value = some "1" then qs.filter (fun u => u.confirmed.isSome)
  else qs

end ConfirmedFilter

namespace CreatedInBackendFilter

/-- `CreatedInBackendFilter.queryset` (src/hp/account/admin.py lines
73-78): filter on `created_in_backend` for values `'0'`/`'1'`, otherwise
return the queryset unchanged. -/
def queryset (value : Option String) (qs : List User) : List User :=
  if value = some "0" then qs.filter (fun u => !u.created_in_backend)
  else if value = some "1" then qs.filter (fun u => u.created_in_backend)
  else qs

end CreatedInBackendFilter

namespace UserAdmin

/-- `UserAdmin.change_actions`. -/
def change_actions : List String := ["block_user", "send_registration"]

/-- `UserAdmin.get_change_actions` (src/hp/account/admin.py lines
110-119): start from the configured change actions and remove
`block_user` for blocked or unconfirmed users and `send_registration`
for confirmed or blocked users.  Python's `list.remove` removes one
occurrence and both names are present in the initial list, so it is
embedded as `List.erase`. -/
def get_change_actions (user : User) : List String :=
  let actions := change_actions
  let actions :=
    if user.blocked || !user.confirmed.isSome then actions.erase "block_user"
    else actions
  let actions :=
    if user.confirmed.isSome || user.blocked then actions.erase "send_registration"
    else actions
  actions

/-- `UserAdmin.send_registration` (src/hp/account/admin.py lines
121-135): for each selected user not created in the backend, resend the
first existing registration-purpose confirmation if there is one,
otherwise enqueue a fresh confirmation task with purpose
`PURPOSE_REGISTER`, language `'en'`, and a base URL built from the
request's scheme and host.  The returned list holds the enqueued tasks
in order. -/
def send_registration (request : Request) (qs : List User) : List Task :=
  let base_url := request.scheme ++ "://" ++ request.host
  (qs.filter (fun u => !u.created_in_backend)).map (fun u =>
    match u.confirmations.find? (fun c => c.purpose == PURPOSE_REGISTER) with
    | some conf => Task.resend [conf.pk]
    | none =>
        Task.send_confirmation u.pk PURPOSE_REGISTER "en" u.email base_url u.domain)

/-- The audit-trail events produced by `block_user`: entering the
`version(user=..., comment=...)` scope, each `block()` call, and leaving
the scope. -/
inductive Event where
  | beginVersion (user : String) (comment : String)
  | blockCall (pk : Nat)
  | endVersion
  deriving DecidableEq, Repr

/-- The fixed comment `block_user` passes to the audit-trail scope. -/
def blockComment : String := "Blocked via admin interface"

/-- The primary keys of the OTHER users `block_user` additionally blocks:
`User.objects.exclude(pk=obj.pk).filter(normalized_email=obj.normalized_email)`,
guarded by `if obj.email:` (so no cross-account blocking when the email
field is falsy). -/
def blockTargets (db : List User) (obj : User) : List Nat :=
  if obj.email ≠ "" then
    (db.filter (fun u =>
      u.pk != obj.pk && u.normalized_email == obj.normalized_email)).map
        (fun u => u.pk)
  else []

/-- `UserAdmin.block_user` (src/hp/account/admin.py lines 143-153): block
`obj` and, when `obj.email` is truthy, every other user with the same
normalized email, all inside one audit-trail scope carrying the acting
operator and `blockComment`.  Returns the updated user table and the
event trace. -/
def block_user (request : Request) (db : List User) (obj : User) :
    List User × List Event :=
  (db.map (fun u =>
      if u.pk = obj.pk ∨ u.pk ∈ blockTargets db obj then u.block else u),
   Event.beginVersion request.user blockComment ::
     Event.blockCall obj.pk ::
       ((blockTargets db obj).map Event.blockCall ++ [Event.endVersion]))

end UserAdmin

/-- A GPG key as `GpgKeyAdmin.refresh` sees it.  `refreshRaises` and
`errorMsg` describe the behavior of the external `refresh()` collaborator
on this key (raises with that message, or succeeds); `refreshed` records
whether a successful refresh has been performed. -/
structure GpgKey where
  fingerprint : String
  refreshRaises : Bool
  errorMsg : String
  refreshed : Bool
  deriving DecidableEq, Repr

/-- Modelled from the spec: `GpgKey.refresh` lives in
`account/models.py`, which is not under src/; the spec treats it as a
fallible per-key refresh operation, so it returns `Except`: an error
with the exception message, or the key marked refreshed. -/
def GpgKey.refresh (k : GpgKey) : Except String GpgKey :=
  if k.refreshRaises then Except.error k.errorMsg
  else Except.ok { k with refreshed := true }

/-- The text of the per-key error notification:
`'Error importing %(fingerprint)s: %(error)s'`. -/
def renderRefreshError (fp err : String) : String :=
  "Error importing " ++ fp ++ ": " ++ err

namespace GpgKeyAdmin

/-- `GpgKeyAdmin.refresh` (src/hp/account/admin.py lines 190-202): for
each selected key call its `refresh()`; on failure log and emit one error
notification with the fingerprint and the message, then continue with the
remaining keys.  The codomain is a plain pair (keys after the action,
notifications emitted): no exception escapes the handler. -/
def refresh : List GpgKey → List GpgKey × List Message
  | [] => ([], [])
  | k :: rest =>
    let r := refresh rest
    match GpgKey.refresh k with
    | Except.ok k2 => (k2 :: r.1, r.2)
    | Except.error e =>
        (k :: r.1,
         { level := Level.error, text := renderRefreshError k.fingerprint e } :: r.2)

end GpgKeyAdmin

namespace ConfirmationAdmin

/-- `ConfirmationAdmin.resend` (src/hp/account/admin.py lines 213-215):
`resend_confirmations.delay(*queryset.values_list('pk', flat=True))` —
one task carrying every selected primary key; the codomain is just the
task list, no per-item result is observed. -/
def resend (qs : List Confirmation) : List Task :=
  [Task.resend (qs.map (fun c => c.pk))]

end ConfirmationAdmin

/-! ### Concrete fixtures for witnesses and counterexamples -/

def cRequest : Request := { scheme := "https", host := "example.com", user := "admin" }

def cUserA : User :=
  { pk := 1, username := "alice", email := "", normalized_email := "",
    blocked := false, confirmed := some 10, created_in_backend := false,
    confirmations := [], domain := "example.com" }

def cUserB : User :=
  { pk := 2, username := "bob", email := "", normalized_email := "",
    blocked := false, confirmed := some 20, created_in_backend := false,
    confirmations := [], domain := "example.com" }

def cUserC : User :=
  { pk := 3, username := "carol", email := "carol@example.com",
    normalized_email := "carol@example.com", blocked := false,
    confirmed := some 30, created_in_backend := false,
    confirmations := [], domain := "example.com" }

def cUserD : User :=
  { pk := 4, username := "dan", email := "dan@example.com",
    normalized_email := "carol@example.com", blocked := false,
    confirmed := some 40, created_in_backend := false,
    confirmations := [], domain := "example.com" }

def cUserE : User :=
  { pk := 5, username := "erin", email := "erin@example.com",
    normalized_email := "erin@example.com", blocked := false,
    confirmed := some 50, created_in_backend := false,
    confirmations := [], domain := "example.com" }

def cUserBlocked : User :=
  { pk := 6, username := "frank", email := "frank@example.com",
    normalized_email := "frank@example.com", blocked := true,
    confirmed := some 60, created_in_backend := false,
    confirmations := [], domain := "example.com" }

/-! ### The claims about the admin actions -/

/-- C1: for every selected set of GPG keys, each key whose `refresh()`
does not raise ends up refreshed even when other keys raise, the emitted
notifications are exactly one error per raising key carrying that key's
fingerprint and error message, and the handler returns normally (its
codomain is a plain pair, not `Except`: no exception propagates). -/
theorem C1_refresh_isolates_failures (qs : List GpgKey) :
    List.Forall₂ (fun k k2 => k.refreshRaises = false → k2.refreshed = true)
      qs (GpgKeyAdmin.refresh qs).1 ∧
    (GpgKeyAdmin.refresh qs).2 =
      (qs.filter (fun k => k.refreshRaises)).map
        (fun k => { level := Level.error,
                    text := renderRefreshError k.fingerprint k.errorMsg }) ∧
    (GpgKeyAdmin.refresh qs).2.length =
      (qs.filter (fun k => k.refreshRaises)).length := by
  induction qs with
  | nil => exact ⟨List.Forall₂.nil, rfl, rfl⟩
  | cons k rest ih =>
    rcases ih with ⟨ih1, ih2, ih3⟩
    by_cases hr : k.refreshRaises = true
    · have hk : GpgKey.refresh k = Except.error k.errorMsg := by
        simp [GpgKey.refresh, hr]
      refine ⟨?_, ?_, ?_⟩
      · simp only [GpgKeyAdmin.refresh, hk]
        exact List.Forall₂.cons (fun hc => absurd hr (by simp [hc])) ih1
      · simp [GpgKeyAdmin.refresh, hk, List.filter_cons, hr, ih2]
      · simp [GpgKeyAdmin.refresh, hk, List.filter_cons, hr, ih3]
    · have hr2 : k.refreshRaises = false := by simpa using hr
      have hk : GpgKey.refresh k = Except.ok { k with refreshed := true } := by
        simp [GpgKey.refresh, hr2]
      refine ⟨?_, ?_, ?_⟩
      · simp only [GpgKeyAdmin.refresh, hk]
        exact List.Forall₂.cons (fun _ => rfl) ih1
      · simp [GpgKeyAdmin.refresh, hk, List.filter_cons, hr2, ih2]
      · simp [GpgKeyAdmin.refresh, hk, List.filter_cons, hr2, ih3]

/-- Counterexample to C2 as stated: `block_user` guards the cross-account
scan with `if obj.email:`, so for a target whose `email` field is empty
another user with the same normalized email is NOT blocked.  Here
`cUserA` and `cUserB` both have empty `email` and equal
`normalized_email`; blocking `cUserA` leaves `cUserB` unblocked. -/
theorem C2_counterexample :
    cUserB.pk ≠ cUserA.pk ∧
    cUserB.normalized_email = cUserA.normalized_email ∧
    (UserAdmin.block_user cRequest [cUserA, cUserB] cUserA).1 =
      [{ cUserA with blocked := true }, cUserB] ∧
    cUserB.blocked = false := by
  decide

/-- C2 (amended): for every user U whose `email` field is nonempty (and a
user table with distinct primary keys), Block User runs U's own block
operation inside one audit-trail scope carrying the acting operator and
the fixed comment (the trace is the scope opening, then only block calls
including U's, then the scope closing), every other user with equal
normalized email is blocked, and every user with a different primary key
and a different normalized email is left unchanged. -/
theorem C2_amended_block_user (request : Request) (db : List User) (obj : User)
    (hemail : obj.email ≠ "") (hpk : (db.map (fun u => u.pk)).Nodup) :
    (∃ middle,
      (UserAdmin.block_user request db obj).2 =
        UserAdmin.Event.beginVersion request.user UserAdmin.blockComment ::
          (middle ++ [UserAdmin.Event.endVersion]) ∧
      UserAdmin.Event.blockCall obj.pk ∈ middle ∧
      ∀ e ∈ middle, ∃ p, e = UserAdmin.Event.blockCall p) ∧
    List.Forall₂ (fun u u2 =>
        ((u.pk = obj.pk ∨ u.normalized_email = obj.normalized_email) →
          u2.blocked = true) ∧
        (u.pk ≠ obj.pk → u.normalized_email ≠ obj.normalized_email → u2 = u))
      db (UserAdmin.block_user request db obj).1 := by
  constructor
  · refine ⟨UserAdmin.Event.blockCall obj.pk ::
      (UserAdmin.blockTargets db obj).map UserAdmin.Event.blockCall,
      rfl, List.mem_cons_self _ _, ?_⟩
    intro e he
    rcases List.mem_cons.mp he with rfl | he2
    · exact ⟨obj.pk, rfl⟩
    · rcases List.mem_map.mp he2 with ⟨p, _, rfl⟩
      exact ⟨p, rfl⟩
  · simp only [UserAdmin.block_user]
    rw [List.forall₂_map_right_iff, List.forall₂_same]
    intro u hu
    constructor
    · rintro (hpkEq | hne)
      · simp [hpkEq, User.block]
      · by_cases hp : u.pk = obj.pk
        · simp [hp, User.block]
        · have hmem : u.pk ∈ UserAdmin.blockTargets db obj := by
            unfold UserAdmin.blockTargets
            rw [if_pos hemail]
            exact List.mem_map.mpr
              ⟨u, List.mem_filter.mpr ⟨hu, by simp [hp, hne]⟩, rfl⟩
          simp [hmem, User.block]
    · intro hp hne
      have hnotmem : u.pk ∉ UserAdmin.blockTargets db obj := by
        intro hmem
        unfold UserAdmin.blockTargets at hmem
        rw [if_pos hemail] at hmem
        rcases List.mem_map.mp hmem with ⟨w, hwmem, hwpk⟩
        rcases List.mem_filter.mp hwmem with ⟨hwdb, hwcond⟩
        simp only [Bool.and_eq_true, bne_iff_ne, beq_iff_eq] at hwcond
        have hwu : w = u := List.inj_on_of_nodup_map hpk hwdb hu hwpk
        exact hne (hwu ▸ hwcond.2)
      simp [hp, hnotmem]

/-- Witness for the amended C2: blocking `cUserC` (nonempty email) in a
three-user table also blocks `cUserD` (same normalized email) and leaves
`cUserE` (different normalized email) unchanged, inside one audit
scope. -/
theorem C2_amended_block_user_witness :
    cUserC.email ≠ "" ∧
    (([cUserC, cUserD, cUserE].map (fun u => u.pk)).Nodup) ∧
    ((∃ middle,
      (UserAdmin.block_user cRequest [cUserC, cUserD, cUserE] cUserC).2 =
        UserAdmin.Event.beginVersion cRequest.user UserAdmin.blockComment ::
          (middle ++ [UserAdmin.Event.endVersion]) ∧
      UserAdmin.Event.blockCall cUserC.pk ∈ middle ∧
      ∀ e ∈ middle, ∃ p, e = UserAdmin.Event.blockCall p) ∧
    List.Forall₂ (fun u u2 =>
        ((u.pk = cUserC.pk ∨ u.normalized_email = cUserC.normalized_email) →
          u2.blocked = true) ∧
        (u.pk ≠ cUserC.pk → u.normalized_email ≠ cUserC.normalized_email → u2 = u))
      [cUserC, cUserD, cUserE]
      (UserAdmin.block_user cRequest [cUserC, cUserD, cUserE] cUserC).1) :=
  ⟨by decide, by decide,
   C2_amended_block_user cRequest [cUserC, cUserD, cUserE] cUserC
     (by decide) (by decide)⟩

/-- C3: Send Registration processes exactly the selected users not
created through a backend process (the task list is in bijection with
that sublist, position by position); for each such user, if a
registration-purpose confirmation exists the first one is resent,
otherwise a new confirmation task is enqueued with purpose
`PURPOSE_REGISTER`, the default locale `'en'`, the user's email and
domain, and a base URL built from the request's scheme and host. -/
theorem C3_send_registration (request : Request) (qs : List User) :
    (UserAdmin.send_registration request qs).length =
      (qs.filter (fun u => !u.created_in_backend)).length ∧
    List.Forall₂ (fun u t =>
        ((∃ c ∈ u.confirmations, c.purpose = PURPOSE_REGISTER) →
          ∃ c, u.confirmations.find? (fun c => c.purpose == PURPOSE_REGISTER) =
                some c ∧
            c.purpose = PURPOSE_REGISTER ∧ t = Task.resend [c.pk]) ∧
        ((∀ c ∈ u.confirmations, c.purpose ≠ PURPOSE_REGISTER) →
          t = Task.send_confirmation u.pk PURPOSE_REGISTER "en" u.email
                (request.scheme ++ "://" ++ request.host) u.domain))
      (qs.filter (fun u => !u.created_in_backend))
      (UserAdmin.send_registration request qs) := by
  constructor
  · simp [UserAdmin.send_registration]
  · simp only [UserAdmin.send_registration]
    rw [List.forall₂_map_right_iff, List.forall₂_same]
    intro u hu
    cases hfind : u.confirmations.find? (fun c => c.purpose == PURPOSE_REGISTER) with
    | some c =>
      constructor
      · intro _
        refine ⟨c, rfl, ?_, rfl⟩
        simpa using List.find?_some hfind
      · intro hall
        have hc : c.purpose = PURPOSE_REGISTER := by
          simpa using List.find?_some hfind
        exact absurd hc (hall c (List.mem_of_find?_eq_some hfind))
    | none =>
      constructor
      · rintro ⟨c, hcmem, hcp⟩
        have := List.find?_eq_none.mp hfind c hcmem
        simp [hcp] at this
      · intro _
        rfl

/-- C4: the per-object action gate of `get_change_actions` never offers
`send_registration` for a user whose `confirmed` field is set or whose
`blocked` field is true, and never offers `block_user` for a user who is
unconfirmed or already blocked. -/
theorem C4_change_actions_gate (user : User) :
    (user.confirmed.isSome = true ∨ user.blocked = true →
      "send_registration" ∉ UserAdmin.get_change_actions user) ∧
    (user.confirmed.isNone = true ∨ user.blocked = true →
      "block_user" ∉ UserAdmin.get_change_actions user) := by
  cases hb : user.blocked <;> cases hc : user.confirmed <;>
    simp only [UserAdmin.get_change_actions, UserAdmin.change_actions, hb, hc,
      Option.isSome_some, Option.isNone_some, Option.isSome_none,
      Option.isNone_none] <;>
    decide

/-- Witness for C4 at a blocked user: neither action is offered. -/
theorem C4_change_actions_gate_witness :
    "send_registration" ∉ UserAdmin.get_change_actions cUserBlocked ∧
    "block_user" ∉ UserAdmin.get_change_actions cUserBlocked :=
  ⟨(C4_change_actions_gate cUserBlocked).1 (Or.inr rfl),
   (C4_change_actions_gate cUserBlocked).2 (Or.inr rfl)⟩

/-- C7: for every filter value other than `'0'` and `'1'` (including an
absent value, `none`), both the confirmed-email filter and the
created-in-backend filter return the queryset unchanged; being total
functions, they raise nothing. -/
theorem C7_filter_passthrough (value : Option String) (qs : List User)
    (h0 : value ≠ some "0") (h1 : value ≠ some "1") :
    ConfirmedFilter.queryset value qs = qs ∧
    CreatedInBackendFilter.queryset value qs = qs := by
  constructor <;>
    simp [ConfirmedFilter.queryset, CreatedInBackendFilter.queryset, h0, h1]

/-- Witness for C7 at the unrecognized value `'2'`. -/
theorem C7_filter_passthrough_witness :
    (some "2" : Option String) ≠ some "0" ∧
    (some "2" : Option String) ≠ some "1" ∧
    (ConfirmedFilter.queryset (some "2") [cUserA] = [cUserA] ∧
      CreatedInBackendFilter.queryset (some "2") [cUserA] = [cUserA]) :=
  ⟨by decide, by decide,
   C7_filter_passthrough (some "2") [cUserA] (by decide) (by decide)⟩

/-- C8: Resend Confirmations enqueues exactly one background task, and
that task carries the primary keys of all selected confirmations; the
action returns nothing else (no per-item result is observed). -/
theorem C8_resend_single_task (qs : List Confirmation) :
    (ConfirmationAdmin.resend qs).length = 1 ∧
    ConfirmationAdmin.resend qs = [Task.resend (qs.map (fun c => c.pk))] :=
  ⟨rfl, rfl⟩

/-- C10: when the target user's `email` field is empty the `if obj.email:`
guard is false, so Block User blocks only the target itself: every user
with a different primary key — including users with equal normalized
email — is left unchanged. -/
theorem C10_block_user_empty_email (request : Request) (db : List User)
    (obj : User) (hemail : obj.email = "") :
    List.Forall₂ (fun u u2 =>
        (u.pk = obj.pk → u2.blocked = true) ∧ (u.pk ≠ obj.pk → u2 = u))
      db (UserAdmin.block_user request db obj).1 := by
  have ht : UserAdmin.blockTargets db obj = [] := by
    simp [UserAdmin.blockTargets, hemail]
  simp only [UserAdmin.block_user, ht]
  rw [List.forall₂_map_right_iff, List.forall₂_same]
  intro u hu
  constructor
  · intro hp
    simp [hp, User.block]
  · intro hp
    simp [hp]

/-- Witness for C10: blocking the empty-email user `cUserA` leaves
`cUserB` (same normalized email, different pk) untouched. -/
theorem C10_block_user_empty_email_witness :
    cUserA.email = "" ∧
    List.Forall₂ (fun u u2 =>
        (u.pk = cUserA.pk → u2.blocked = true) ∧ (u.pk ≠ cUserA.pk → u2 = u))
      [cUserA, cUserB] (UserAdmin.block_user cRequest [cUserA, cUserB] cUserA).1 :=
  ⟨rfl, C10_block_user_empty_email cRequest [cUserA, cUserB] cUserA rfl⟩

end Account

end HP
